import Mathlib

/-!
The local warden of hydra: policy decisions over a subject and its groups.

A shallow embedding of `warden/warden_local.go` (type `LocalWarden` with
`IsAllowed`, `TokenAllowed`, `isAllowed`, `newContext`, `newBasicContext`).

Modelling conventions.

* A Go `error` is `Option GoError`; `none` is `nil`.
* The three collaborators of `LocalWarden` (`Warden`, `OAuth2`, `Groups`) are
  Go interfaces; they are fields of the record holding the function each one
  computes.  Every call to a collaborator, every log entry and every counter
  increment is recorded, in program order, in the list of `Event`s returned
  next to the Go return value.
* `time.Time` is an instant: a count of seconds from the zero `Time`
  (January 1, year 1, 00:00:00 UTC) that fits an `int64`, and a count of
  nanoseconds within the second.  `time.Duration` is an `int64` number of
  nanoseconds.  `Time.Add` saturates at the ends of the range, as in the
  standard library.  Locations and the monotonic clock reading are not
  represented: neither changes the instant nor `IsZero`.
* `ladon.Context` and the `Extra` map of a session are only passed along by
  this code; they are association lists of strings.
-/

/-! ## Go errors and the package `github.com/pkg/errors` -/

/-- An error value.  `root` is a value whose type has no `Cause` method (for
instance one made by `errors.New`); `id` stands for its identity, which is
what `==` on two error interfaces compares.  `causer` is a value with a
`Cause` method returning a further error, `causerNil` one whose `Cause`
method returns `nil`.  `msg` is what `Error()` returns. -/
inductive GoError where
  | root (id : String) (msg : String)
  | causerNil (msg : String)
  | causer (msg : String) (cause : GoError)
deriving DecidableEq, Repr

/-- The method `Error()` of an error value. -/
def GoError.Error : GoError → String
  | .root _ msg => msg
  | .causerNil msg => msg
  | .causer msg _ => msg

/-- The loop of `errors.Cause` started at a non-nil error: follow `Cause()`
while the value has that method. -/
def GoError.Cause : GoError → Option GoError
  | .root id msg => some (.root id msg)
  | .causerNil _ => none
  | .causer _ cause => cause.Cause

/-- Function `errors.Cause(err)`. -/
def errors.Cause : Option GoError → Option GoError
  | none => none
  | some e => e.Cause

/-- Function `errors.Wrap(err, message)`: `nil` for a `nil` error, otherwise a
`withStack` around a `withMessage` around `err`; both print as
`message + ": " + err.Error()` and both have a `Cause` method. -/
def errors.Wrap (err : Option GoError) (message : String) : Option GoError :=
  match err with
  | none => none
  | some e =>
    some (.causer (message ++ ": " ++ e.Error) (.causer (message ++ ": " ++ e.Error) e))

/-! ## Sentinel errors of ladon and fosite -/

/-- Value `ladon.ErrRequestDenied`.  In the ladon release this warden is built
against (v0.8.2) it is `errors.WithStack(&errorWithContext{...})` around
`errors.New("Request was denied by default")`: a `withStack`, which has a
`Cause` method, around a value that has none. -/
def ladon.ErrRequestDenied : GoError :=
  .causer "Request was denied by default"
    (.root "ladon.ErrRequestDenied.errorWithContext" "Request was denied by default")

/-- Value `ladon.ErrRequestForcefullyDenied`.  In the ladon release this warden
is built against (v0.8.2) it is `errors.WithStack(&errorWithContext{...})`
around `errors.New("Request was forcefully denied")`: a `withStack`, which
has a `Cause` method, around a value that has none.  (Two `withStack` values
are told apart by `==` as pointers; the code compares this one only with
results of `errors.Cause`, which never have a `Cause` method.) -/
def ladon.ErrRequestForcefullyDenied : GoError :=
  .causer "Request was forcefully denied"
    (.root "ladon.ErrRequestForcefullyDenied.errorWithContext" "Request was forcefully denied")

/-- Value `fosite.ErrRequestForbidden`, made with `errors.New`. -/
def fosite.ErrRequestForbidden : GoError :=
  .root "fosite.ErrRequestForbidden" "The request is not allowed"

/-! ## Time -/

/-- Type `time.Duration`: an `int64` count of nanoseconds. -/
structure time.Duration where
  ns : Int
  ns_range : -9223372036854775808 ≤ ns ∧ ns ≤ 9223372036854775807
deriving DecidableEq, Repr

/-- Type `time.Time` as an instant: `sec` is the `int64` count of seconds
from January 1, year 1, 00:00:00 UTC (what the method `sec()` returns) and
`nsec` the nanoseconds within the second (what `nsec()` returns). -/
structure time.Time where
  sec : Int
  nsec : Int
  sec_range : -9223372036854775808 ≤ sec ∧ sec ≤ 9223372036854775807
  nsec_range : 0 ≤ nsec ∧ nsec ≤ 999999999
deriving DecidableEq, Repr

/-- The zero value `time.Time{}`. -/
def time.Time.zero : time.Time := ⟨0, 0, by decide, by decide⟩

/-- Method `Time.IsZero`: `t.sec() == 0 && t.nsec() == 0`. -/
def time.Time.IsZero (t : time.Time) : Bool := t.sec == 0 && t.nsec == 0

/-- Go's `a / b` on integers, which truncates toward zero. -/
def time.quo (a b : Int) : Int := if 0 ≤ a then a / b else -((-a) / b)

/-- Go's `a % b` on integers, which has the sign of `a`. -/
def time.rem (a b : Int) : Int := if 0 ≤ a then a % b else -((-a) % b)

/-- Addition of `int64`: the sum modulo `2^64`, read as a signed number. -/
def time.wrapInt64 (x : Int) : Int :=
  (x + 9223372036854775808) % 18446744073709551616 - 9223372036854775808

/-- First part of `Time.Add`: the seconds `dsec` to add and the new
nanoseconds, from `dsec := int64(d / 1e9)` and
`nsec := t.nsec() + int32(d % 1e9)`, brought back into one second. -/
def time.addNsec (nsec d : Int) : Int × Int :=
  let dsec := time.quo d 1000000000
  let nsec := nsec + time.rem d 1000000000
  if nsec ≥ 1000000000 then (dsec + 1, nsec - 1000000000)
  else if nsec < 0 then (dsec - 1, nsec + 1000000000)
  else (dsec, nsec)

/-- Method `Time.addSec` on the count of seconds: `sum := t.ext + d`, kept
when `(sum > t.ext) == (d > 0)`, and otherwise replaced by `1<<63 - 1` for a
positive `d` and by `-(1<<63 - 1)` for a negative one. -/
def time.addSec (ext d : Int) : Int :=
  let sum := time.wrapInt64 (ext + d)
  if (sum > ext ↔ d > 0) then sum
  else if d > 0 then 9223372036854775807
  else -9223372036854775807

/-- Method `Time.Add`. -/
def time.Time.Add (t : time.Time) (d : time.Duration) : time.Time :=
  { sec := time.addSec t.sec (time.addNsec t.nsec d.ns).1,
    nsec := (time.addNsec t.nsec d.ns).2,
    sec_range := by
      unfold time.addSec time.wrapInt64
      simp only
      split
      · omega
      · split <;> omega,
    nsec_range := by
      have := t.nsec_range
      unfold time.addNsec time.rem
      simp only
      split <;> split <;> (try split) <;> simp only <;> omega }

/-- The instant of a `Time` in nanoseconds from the zero `Time`, as a
mathematical integer. -/
def time.Time.nanos (t : time.Time) : Int := t.sec * 1000000000 + t.nsec

/-! ## Requests, sessions and the returned context -/

/-- Struct `ladon.Request`, with the fields this code sets. -/
structure ladon.Request where
  Resource : String
  Action : String
  Subject : String
  Context : List (String × String)
deriving DecidableEq, Repr

/-- Struct `firewall.AccessRequest`. -/
structure firewall.AccessRequest where
  Resource : String
  Action : String
  Subject : String
  Context : List (String × String)
deriving DecidableEq, Repr

/-- Struct `firewall.TokenAccessRequest`. -/
structure firewall.TokenAccessRequest where
  Resource : String
  Action : String
  Context : List (String × String)
deriving DecidableEq, Repr

/-- Struct `firewall.Context`. -/
structure firewall.Context where
  Subject : String
  GrantedScopes : List String
  Issuer : String
  Audience : String
  IssuedAt : time.Time
  ExpiresAt : time.Time
  Extra : List (String × String)
deriving DecidableEq, Repr

/-- What the code reads of an `*oauth2.Session`: the result of the method
`GetSubject()`, the fields `Subject` and `Extra`, and the result of
`GetExpiresAt(fosite.AccessToken)`. -/
structure oauth2.Session where
  GetSubject : String
  Subject : String
  Extra : List (String × String)
  GetExpiresAtAccessToken : time.Time
deriving DecidableEq, Repr

/-- What the code reads of a `fosite.AccessRequester`: `GetSession()` (an
`*oauth2.Session`, the kind handed to `IntrospectToken`), `GetClient().GetID()`,
`GetGrantedScopes()` and `GetRequestedAt()`. -/
structure fosite.AccessRequester where
  GetSession : oauth2.Session
  GetClientID : String
  GetGrantedScopes : List String
  GetRequestedAt : time.Time
deriving DecidableEq, Repr

/-! ## Observable effects -/

/-- A value stored under a key of `logrus.Fields`. -/
inductive LogValue where
  | str (s : String)
  | strs (l : List String)
  | accessRequest (a : firewall.AccessRequest)
  | tokenAccessRequest (a : firewall.TokenAccessRequest)
  | requester (a : fosite.AccessRequester)
  | context (c : firewall.Context)
deriving DecidableEq, Repr

/-- One effect of the warden: a call to a collaborator, a log entry
(`WithFields(fields).WithError(err).Infof(msg)`, with `err = nil` when
`WithError` is not called) or a counter increment. -/
inductive Event where
  | FindGroupNames (subject : String)
  | WardenIsAllowed (r : ladon.Request)
  | IntrospectToken (token : String) (scopes : List String)
  | Log (fields : List (String × LogValue)) (err : Option GoError) (msg : String)
  | Increment (name : String) (tags : List (String × String))
deriving DecidableEq, Repr

/-- Event is a consultation of the Policy Evaluator. -/
def Event.isWardenIsAllowed : Event → Bool
  | .WardenIsAllowed _ => true
  | _ => false

/-- Event is a consultation of the Group Resolver. -/
def Event.isFindGroupNames : Event → Bool
  | .FindGroupNames _ => true
  | _ => false

/-! ## The warden -/

/-- Struct `LocalWarden`.  `Warden` is `ladon.Warden.IsAllowed`, `OAuth2` is
`fosite.OAuth2Provider.IntrospectToken` called with token type
`fosite.AccessToken` and a fresh `oauth2.NewSession("")` (it yields either
an error or a requester), `Groups` is `group.Manager.FindGroupNames`.  The
logger `L` only receives entries, which are recorded as events.
`SanitizeForStatsd` is the helper `pkg.SanitizeForStatsd` of the package
`hydra/pkg`, taken as a parameter. -/
structure LocalWarden where
  Warden : ladon.Request → Option GoError
  OAuth2 : String → List String → Except GoError fosite.AccessRequester
  Groups : String → List String × Option GoError
  AccessTokenLifespan : time.Duration
  Issuer : String
  SanitizeForStatsd : String → String → String

/-- First loop of `isAllowed`: the value returned at the first error whose
cause is `ladon.ErrRequestForcefullyDenied`, or `none` when the loop runs
to its end.  A `nil` entry has cause `nil`, which is not the sentinel. -/
def forcefulDenyLoop : List (Option GoError) → Option (Option GoError)
  | [] => none
  | none :: rest => forcefulDenyLoop rest
  | some e :: rest =>
    if errors.Cause (some e) = some ladon.ErrRequestForcefullyDenied then
      some (errors.Wrap (some fosite.ErrRequestForbidden) e.Error)
    else forcefulDenyLoop rest

/-- Second loop of `isAllowed`: whether some entry is `nil`. -/
def allowLoop : List (Option GoError) → Bool
  | [] => false
  | none :: _ => true
  | some _ :: rest => allowLoop rest

/-- Method `LocalWarden.isAllowed`. -/
def LocalWarden.isAllowed (w : LocalWarden) (a : ladon.Request) :
    Option GoError × List Event :=
  match w.Groups a.Subject with
  | (_, some err) => (some err, [Event.FindGroupNames a.Subject])
  | (groups, none) =>
    let r0 : ladon.Request :=
      { Resource := a.Resource, Action := a.Action, Subject := a.Subject, Context := a.Context }
    let rs : List ladon.Request := groups.map fun g =>
      { Resource := a.Resource, Action := a.Action, Subject := g, Context := a.Context }
    let errs : List (Option GoError) := w.Warden r0 :: rs.map w.Warden
    let trace : List Event :=
      Event.FindGroupNames a.Subject :: Event.WardenIsAllowed r0 :: rs.map Event.WardenIsAllowed
    match forcefulDenyLoop errs with
    | some ret => (ret, trace)
    | none =>
      if allowLoop errs then (none, trace)
      else (errors.Wrap (some fosite.ErrRequestForbidden) ladon.ErrRequestDenied.Error, trace)

/-- Method `LocalWarden.IsAllowed`. -/
def LocalWarden.IsAllowed (w : LocalWarden) (a : firewall.AccessRequest) :
    Option GoError × List Event :=
  let statsdResource := w.SanitizeForStatsd a.Resource "_"
  let r := w.isAllowed
    { Resource := a.Resource, Action := a.Action, Subject := a.Subject, Context := a.Context }
  match r.1 with
  | some err =>
    (some err, r.2 ++
      [Event.Log
        [("subject", .str a.Subject), ("request", .accessRequest a),
         ("reason", .str "The policy decision point denied the request")]
        (some err) "Access denied",
       Event.Increment "Warden.IsAllowed.Failure"
        [("client_id", a.Subject), ("resource", statsdResource),
         ("reason", "The policy decision point denied the request")]])
  | none =>
    (none, r.2 ++
      [Event.Log
        [("subject", .str a.Subject), ("request", .accessRequest a),
         ("reason", .str "The policy decision point allowed the request")]
        none "Access allowed",
       Event.Increment "Warden.IsAllowed.Success"
        [("client_id", a.Subject), ("resource", statsdResource)]])

/-- Method `LocalWarden.newBasicContext`: the zero value of `firewall.Context`. -/
def LocalWarden.newBasicContext (_w : LocalWarden) : firewall.Context :=
  { Subject := "", GrantedScopes := [], Issuer := "", Audience := "",
    IssuedAt := time.Time.zero, ExpiresAt := time.Time.zero, Extra := [] }

/-- Method `LocalWarden.newContext`. -/
def LocalWarden.newContext (w : LocalWarden) (auth : fosite.AccessRequester) :
    firewall.Context :=
  let session := auth.GetSession
  let exp := auth.GetSession.GetExpiresAtAccessToken
  let exp := if exp.IsZero then auth.GetRequestedAt.Add w.AccessTokenLifespan else exp
  { Subject := session.Subject,
    GrantedScopes := auth.GetGrantedScopes,
    Issuer := w.Issuer,
    Audience := auth.GetClientID,
    IssuedAt := auth.GetRequestedAt,
    ExpiresAt := exp,
    Extra := session.Extra }

/-- Method `LocalWarden.TokenAllowed`. -/
def LocalWarden.TokenAllowed (w : LocalWarden) (token : String)
    (a : firewall.TokenAccessRequest) (scopes : List String) :
    (firewall.Context × Option GoError) × List Event :=
  let c := w.newBasicContext
  let statsdResource := w.SanitizeForStatsd a.Resource "_"
  let statsdAction := w.SanitizeForStatsd a.Action "_"
  match w.OAuth2 token scopes with
  | .error err =>
    ((c, some err),
      [Event.IntrospectToken token scopes,
       Event.Log
        [("request", .tokenAccessRequest a),
         ("reason", .str "Token is expired, malformed or missing")]
        (some err) "Access denied",
       Event.Increment "Warden.TokenAllowed.Failure"
        [("client_id", ""), ("resource", statsdResource),
         ("reason", "Token is expired, malformed or missing"), ("action", statsdAction)]])
  | .ok auth =>
    let session := auth.GetSession
    let r := w.isAllowed
      { Resource := a.Resource, Action := a.Action, Subject := session.GetSubject,
        Context := a.Context }
    match r.1 with
    | some err =>
      (({ c with Subject := session.GetSubject }, some err),
        Event.IntrospectToken token scopes :: r.2 ++
        [Event.Log
          [("scopes", .strs scopes), ("subject", .str session.GetSubject),
           ("audience", .str auth.GetClientID), ("request", .tokenAccessRequest a),
           ("reason", .str "The policy decision point denied the request")]
          (some err) "Access denied",
         Event.Increment "Warden.TokenAllowed.Failure"
          [("client_id", session.GetSubject), ("resource", statsdResource),
           ("reason", "The policy decision point denied the request"),
           ("action", statsdAction)]])
    | none =>
      let c := w.newContext auth
      ((c, none),
        Event.IntrospectToken token scopes :: r.2 ++
        [Event.Log
          [("subject", .str c.Subject), ("audience", .str auth.GetClientID),
           ("request", .requester auth), ("result", .context c)]
          none "Access granted",
         Event.Increment "Warden.TokenAllowed.Success"
          [("client_id", c.Subject), ("resource", statsdResource),
           ("action", statsdAction)]])

/-! ## Vocabulary of the statements -/

/-- Policy evaluation of one identity: the call `w.Warden.IsAllowed` that
`isAllowed` makes with that identity as `Subject` and the resource, action
and context of the request. -/
def LocalWarden.evaluate (w : LocalWarden) (resource action : String)
    (context : List (String × String)) (id : String) : Option GoError :=
  w.Warden { Resource := resource, Action := action, Subject := id, Context := context }

/-! ## Concrete wardens -/

/-- A plain denial as ladon returns it: `errors.WithStack(ErrRequestDenied)`. -/
def plainDeny : GoError :=
  .causer "Request was denied by default" ladon.ErrRequestDenied

/-- A forceful denial as ladon returns it:
`errors.WithStack(ErrRequestForcefullyDenied)`. -/
def forcefulDeny : GoError :=
  .causer "Request was forcefully denied" ladon.ErrRequestForcefullyDenied

/-- An error of the policy storage, unrelated to any policy. -/
def storageDown : GoError :=
  .root "sql.ErrConnDone" "sql: connection is already closed"

/-- An introspection failure. -/
def tokenExpired : GoError :=
  .root "fosite.ErrTokenExpired" "Token expired"

/-- An authenticated request of subject alice, issued 1000 seconds after
the zero time to client app, whose session carries no expiry. -/
def aliceAuth : fosite.AccessRequester :=
  { GetSession :=
      { GetSubject := "alice", Subject := "alice", Extra := [("team", "ops")],
        GetExpiresAtAccessToken := time.Time.zero },
    GetClientID := "app",
    GetGrantedScopes := ["hydra.clients"],
    GetRequestedAt := ⟨1000, 0, by decide, by decide⟩ }

/-- The same authenticated request, issued at the last second a `Time` can
hold. -/
def lateAuth : fosite.AccessRequester :=
  { aliceAuth with GetRequestedAt := ⟨9223372036854775807, 0, by decide, by decide⟩ }

/-- A warden whose evaluator looks at the acting subject only, whose group
resolver gives the same answer for everybody and whose introspection accepts
the token valid alone; access tokens live one hour. -/
def sampleWarden (eval : String → Option GoError) (groups : List String × Option GoError) :
    LocalWarden :=
  { Warden := fun r => eval r.Subject,
    OAuth2 := fun token _ => if token = "valid" then .ok aliceAuth else .error tokenExpired,
    Groups := fun _ => groups,
    AccessTokenLifespan := ⟨3600000000000, by decide⟩,
    Issuer := "hydra.localhost",
    SanitizeForStatsd := fun s _ => s }

/-- Alice is plainly denied, her group admins is allowed. -/
def denyAllow : LocalWarden :=
  sampleWarden (fun id => if id = "admins" then none else some plainDeny) (["admins"], none)

/-- Alice is allowed, her first group matches no policy and her second
group is forcefully denied. -/
def allowForce : LocalWarden :=
  sampleWarden
    (fun id => if id = "alice" then none else if id = "banned" then some forcefulDeny
      else some plainDeny)
    (["staff", "banned"], none)

/-- Nobody matches any policy. -/
def noMatch : LocalWarden :=
  sampleWarden (fun _ => some plainDeny) (["admins"], none)

/-- The group storage fails. -/
def groupsDown : LocalWarden :=
  sampleWarden (fun _ => none) ([], some storageDown)

/-- The policy storage fails for alice and answers Allow for her group. -/
def policyDown : LocalWarden :=
  sampleWarden (fun id => if id = "admins" then none else some storageDown) (["admins"], none)

/-- Everybody is allowed. -/
def allowAll : LocalWarden :=
  sampleWarden (fun _ => none) ([], none)

/-- A warden with no configured lifespan whose introspection yields a
request with unset `RequestedAt` and a session with no expiry; everybody is
allowed. -/
def unsetClock : LocalWarden :=
  { Warden := fun _ => none,
    OAuth2 := fun _ _ => .ok { aliceAuth with GetRequestedAt := time.Time.zero },
    Groups := fun _ => ([], none),
    AccessTokenLifespan := ⟨0, by decide⟩,
    Issuer := "hydra.localhost",
    SanitizeForStatsd := fun s _ => s }

/-- The request of alice to read the clients. -/
def aliceRequest : ladon.Request :=
  { Resource := "rn:hydra:clients", Action := "get", Subject := "alice", Context := [] }

/-- The same request as handed to `IsAllowed`. -/
def aliceAccess : firewall.AccessRequest :=
  { Resource := "rn:hydra:clients", Action := "get", Subject := "alice", Context := [] }

/-- The same request as handed to `TokenAllowed`. -/
def tokenRequest : firewall.TokenAccessRequest :=
  { Resource := "rn:hydra:clients", Action := "get", Context := [] }

/-! ## Lemmas on errors and on the two loops -/

theorem errors_Cause_Wrap (e : GoError) (m : String) :
    errors.Cause (errors.Wrap (some e) m) = e.Cause := by
  simp [errors.Wrap, errors.Cause, GoError.Cause]

theorem errors_Wrap_ne_none (e : GoError) (m : String) :
    errors.Wrap (some e) m ≠ none := by
  simp [errors.Wrap]

theorem errors_Cause_Wrap_forbidden (m : String) :
    errors.Cause (errors.Wrap (some fosite.ErrRequestForbidden) m)
      = some fosite.ErrRequestForbidden := by
  rw [errors_Cause_Wrap]
  rfl

theorem GoError_Cause_root (e c : GoError) (h : e.Cause = some c) :
    ∃ id msg, c = .root id msg := by
  induction e with
  | root id msg =>
    simp only [GoError.Cause, Option.some.injEq] at h
    exact ⟨id, msg, h.symm⟩
  | causerNil msg => simp [GoError.Cause] at h
  | causer msg cause ih => exact ih (by simpa [GoError.Cause] using h)

theorem errors_Cause_ne_forcefullyDenied (err : Option GoError) :
    errors.Cause err ≠ some ladon.ErrRequestForcefullyDenied := by
  intro h
  cases err with
  | none => simp [errors.Cause] at h
  | some e =>
    obtain ⟨id, msg, hc⟩ := GoError_Cause_root e _ h
    simp [ladon.ErrRequestForcefullyDenied] at hc

theorem forcefulDenyLoop_eq_none_iff (errs : List (Option GoError)) :
    forcefulDenyLoop errs = none ↔
      ∀ err ∈ errs, errors.Cause err ≠ some ladon.ErrRequestForcefullyDenied := by
  induction errs with
  | nil => simp [forcefulDenyLoop]
  | cons x xs ih =>
    cases x with
    | none => simp [forcefulDenyLoop, ih, errors.Cause]
    | some e =>
      by_cases hc : errors.Cause (some e) = some ladon.ErrRequestForcefullyDenied
      · simp [forcefulDenyLoop, hc]
      · simp [forcefulDenyLoop, hc, ih]

theorem forcefulDenyLoop_eq_some (errs : List (Option GoError)) (ret : Option GoError)
    (h : forcefulDenyLoop errs = some ret) :
    ∃ e, some e ∈ errs ∧ errors.Cause (some e) = some ladon.ErrRequestForcefullyDenied ∧
      ret = errors.Wrap (some fosite.ErrRequestForbidden) e.Error := by
  induction errs with
  | nil => simp [forcefulDenyLoop] at h
  | cons x xs ih =>
    cases x with
    | none =>
      simp only [forcefulDenyLoop] at h
      obtain ⟨e, he, hc, hr⟩ := ih h
      exact ⟨e, List.mem_cons_of_mem _ he, hc, hr⟩
    | some e =>
      by_cases hc : errors.Cause (some e) = some ladon.ErrRequestForcefullyDenied
      · simp only [forcefulDenyLoop, hc, if_true, Option.some.injEq] at h
        exact ⟨e, List.mem_cons_self _ _, hc, h.symm⟩
      · simp only [forcefulDenyLoop, hc, if_false] at h
        obtain ⟨e1, he, hc1, hr⟩ := ih h
        exact ⟨e1, List.mem_cons_of_mem _ he, hc1, hr⟩

theorem allowLoop_iff (errs : List (Option GoError)) :
    allowLoop errs = true ↔ none ∈ errs := by
  induction errs with
  | nil => simp [allowLoop]
  | cons x xs ih =>
    cases x with
    | none => simp [allowLoop]
    | some e => simp [allowLoop, ih]

/-! ## The result of `isAllowed` in terms of the evaluations of the identities -/

theorem isAllowed_fst (w : LocalWarden) (a : ladon.Request) (groups : List String)
    (h : w.Groups a.Subject = (groups, none)) :
    (w.isAllowed a).1 =
      match forcefulDenyLoop
          ((a.Subject :: groups).map (w.evaluate a.Resource a.Action a.Context)) with
      | some ret => ret
      | none =>
        if allowLoop ((a.Subject :: groups).map (w.evaluate a.Resource a.Action a.Context))
        then none
        else errors.Wrap (some fosite.ErrRequestForbidden) ladon.ErrRequestDenied.Error := by
  unfold LocalWarden.isAllowed
  rw [h]
  simp only [List.map_cons, List.map_map]
  have hm : List.map (w.Warden ∘ fun g =>
      ({ Resource := a.Resource, Action := a.Action, Subject := g, Context := a.Context } :
        ladon.Request)) groups
      = List.map (w.evaluate a.Resource a.Action a.Context) groups := by
    apply List.map_congr_left
    intro g _
    rfl
  rw [hm]
  have h0 : w.Warden
      { Resource := a.Resource, Action := a.Action, Subject := a.Subject, Context := a.Context }
      = w.evaluate a.Resource a.Action a.Context a.Subject := rfl
  rw [h0]
  cases hf : forcefulDenyLoop (w.evaluate a.Resource a.Action a.Context a.Subject ::
      List.map (w.evaluate a.Resource a.Action a.Context) groups) with
  | some ret => simp
  | none =>
    by_cases ha : allowLoop (w.evaluate a.Resource a.Action a.Context a.Subject ::
        List.map (w.evaluate a.Resource a.Action a.Context) groups) = true
    · simp [ha]
    · simp [ha]

theorem isAllowed_of_groups_error (w : LocalWarden) (a : ladon.Request) (gs : List String)
    (e : GoError) (h : w.Groups a.Subject = (gs, some e)) :
    w.isAllowed a = (some e, [Event.FindGroupNames a.Subject]) := by
  unfold LocalWarden.isAllowed
  rw [h]

theorem isAllowed_eq_none_iff (w : LocalWarden) (a : ladon.Request) (groups : List String)
    (h : w.Groups a.Subject = (groups, none)) :
    (w.isAllowed a).1 = none ↔
      (∀ id ∈ a.Subject :: groups,
        errors.Cause (w.evaluate a.Resource a.Action a.Context id)
          ≠ some ladon.ErrRequestForcefullyDenied) ∧
      (∃ id ∈ a.Subject :: groups, w.evaluate a.Resource a.Action a.Context id = none) := by
  rw [isAllowed_fst w a groups h]
  cases hf : forcefulDenyLoop
      ((a.Subject :: groups).map (w.evaluate a.Resource a.Action a.Context)) with
  | some ret =>
    obtain ⟨e, he, hc, hr⟩ := forcefulDenyLoop_eq_some _ _ hf
    obtain ⟨id, hid, hev⟩ := List.mem_map.1 he
    constructor
    · intro hn
      simp only at hn
      rw [hr] at hn
      exact absurd hn (errors_Wrap_ne_none _ _)
    · rintro ⟨hall, _⟩
      exact absurd (hev ▸ hc) (hall id hid)
  | none =>
    have hall := (forcefulDenyLoop_eq_none_iff _).1 hf
    by_cases ha : allowLoop
        ((a.Subject :: groups).map (w.evaluate a.Resource a.Action a.Context)) = true
    · simp only [ha, if_true, true_iff]
      refine ⟨fun id hid => hall _ (List.mem_map.2 ⟨id, hid, rfl⟩), ?_⟩
      obtain ⟨id, hid, hev⟩ := List.mem_map.1 ((allowLoop_iff _).1 ha)
      exact ⟨id, hid, hev⟩
    · simp only [ha]
      constructor
      · intro hn
        exact absurd hn (errors_Wrap_ne_none _ _)
      · rintro ⟨_, id, hid, hev⟩
        exact absurd ((allowLoop_iff _).2 (List.mem_map.2 ⟨id, hid, hev⟩)) ha

theorem IsAllowed_fst (w : LocalWarden) (a : firewall.AccessRequest) :
    (w.IsAllowed a).1 = (w.isAllowed
      { Resource := a.Resource, Action := a.Action, Subject := a.Subject,
        Context := a.Context }).1 := by
  unfold LocalWarden.IsAllowed
  cases hr : (w.isAllowed
      { Resource := a.Resource, Action := a.Action, Subject := a.Subject,
        Context := a.Context }).1 with
  | none => simp [hr]
  | some e => simp [hr]

/-! ## The combination rule -/

/-- C1: when the group resolver answers without error, `IsAllowed` (and
`isAllowed`, whose result it returns) yields `nil` exactly when no identity
among the subject and its groups evaluates to an error caused by
`ladon.ErrRequestForcefullyDenied` and at least one identity evaluates to
`nil`.  In particular, with no forceful denial around, a plain denial of the
subject and an Allow for one of its groups give Allow. -/
theorem IsAllowed_nil_iff (w : LocalWarden) (a : firewall.AccessRequest)
    (groups : List String) (h : w.Groups a.Subject = (groups, none)) :
    ((w.IsAllowed a).1 = none ↔
      (∀ id ∈ a.Subject :: groups,
        errors.Cause (w.evaluate a.Resource a.Action a.Context id)
          ≠ some ladon.ErrRequestForcefullyDenied) ∧
      (∃ id ∈ a.Subject :: groups, w.evaluate a.Resource a.Action a.Context id = none)) ∧
    ((w.isAllowed ⟨a.Resource, a.Action, a.Subject, a.Context⟩).1 = none ↔
      (∀ id ∈ a.Subject :: groups,
        errors.Cause (w.evaluate a.Resource a.Action a.Context id)
          ≠ some ladon.ErrRequestForcefullyDenied) ∧
      (∃ id ∈ a.Subject :: groups, w.evaluate a.Resource a.Action a.Context id = none)) ∧
    (∀ g ∈ groups,
      w.evaluate a.Resource a.Action a.Context a.Subject ≠ none →
      (∀ id ∈ a.Subject :: groups,
        errors.Cause (w.evaluate a.Resource a.Action a.Context id)
          ≠ some ladon.ErrRequestForcefullyDenied) →
      w.evaluate a.Resource a.Action a.Context g = none →
      (w.IsAllowed a).1 = none) := by
  have key := isAllowed_eq_none_iff w ⟨a.Resource, a.Action, a.Subject, a.Context⟩ groups h
  refine ⟨?_, key, ?_⟩
  · rw [IsAllowed_fst]
    exact key
  · intro g hg _ hall hev
    rw [IsAllowed_fst]
    exact key.2 ⟨hall, g, List.mem_cons_of_mem _ hg, hev⟩

/-- Witness of C1: alice is plainly denied, her group admins is allowed. -/
theorem IsAllowed_nil_iff_witness :
    denyAllow.Groups aliceAccess.Subject = (["admins"], none) ∧
    (((denyAllow.IsAllowed aliceAccess).1 = none ↔
      (∀ id ∈ aliceAccess.Subject :: ["admins"],
        errors.Cause (denyAllow.evaluate aliceAccess.Resource aliceAccess.Action
          aliceAccess.Context id) ≠ some ladon.ErrRequestForcefullyDenied) ∧
      (∃ id ∈ aliceAccess.Subject :: ["admins"],
        denyAllow.evaluate aliceAccess.Resource aliceAccess.Action aliceAccess.Context id
          = none)) ∧
    ((denyAllow.isAllowed ⟨aliceAccess.Resource, aliceAccess.Action, aliceAccess.Subject,
        aliceAccess.Context⟩).1 = none ↔
      (∀ id ∈ aliceAccess.Subject :: ["admins"],
        errors.Cause (denyAllow.evaluate aliceAccess.Resource aliceAccess.Action
          aliceAccess.Context id) ≠ some ladon.ErrRequestForcefullyDenied) ∧
      (∃ id ∈ aliceAccess.Subject :: ["admins"],
        denyAllow.evaluate aliceAccess.Resource aliceAccess.Action aliceAccess.Context id
          = none)) ∧
    (∀ g ∈ ["admins"],
      denyAllow.evaluate aliceAccess.Resource aliceAccess.Action aliceAccess.Context
        aliceAccess.Subject ≠ none →
      (∀ id ∈ aliceAccess.Subject :: ["admins"],
        errors.Cause (denyAllow.evaluate aliceAccess.Resource aliceAccess.Action
          aliceAccess.Context id) ≠ some ladon.ErrRequestForcefullyDenied) →
      denyAllow.evaluate aliceAccess.Resource aliceAccess.Action aliceAccess.Context g = none →
      (denyAllow.IsAllowed aliceAccess).1 = none)) ∧
    (denyAllow.IsAllowed aliceAccess).1 = none :=
  ⟨rfl, IsAllowed_nil_iff denyAllow aliceAccess ["admins"] rfl, by decide⟩

/-- C2 fails on the code: `errors.Cause` only returns values without a
`Cause` method, `ladon.ErrRequestForcefullyDenied` has one, so the test of
the first loop of `isAllowed` holds for no evaluation and that loop never
returns.  With alice allowed and her group banned forcefully denied (the
evaluator returns `errors.WithStack(ladon.ErrRequestForcefullyDenied)`),
`isAllowed` and `IsAllowed` return `nil`: the forceful denial does not
override the Allow. -/
theorem isAllowed_forceful_deny_ignored :
    (∀ err : Option GoError, errors.Cause err ≠ some ladon.ErrRequestForcefullyDenied) ∧
    (∀ errs : List (Option GoError), forcefulDenyLoop errs = none) ∧
    allowForce.Groups aliceRequest.Subject = (["staff", "banned"], none) ∧
    allowForce.evaluate aliceRequest.Resource aliceRequest.Action aliceRequest.Context
      "alice" = none ∧
    allowForce.evaluate aliceRequest.Resource aliceRequest.Action aliceRequest.Context
      "banned" = some (.causer "Request was forcefully denied"
        ladon.ErrRequestForcefullyDenied) ∧
    (allowForce.isAllowed aliceRequest).1 = none ∧
    (allowForce.IsAllowed aliceAccess).1 = none :=
  ⟨errors_Cause_ne_forcefullyDenied,
    fun errs => (forcefulDenyLoop_eq_none_iff errs).2
      (fun err _ => errors_Cause_ne_forcefullyDenied err),
    rfl, by decide, by decide, by decide, by decide⟩

/-- C3: when the group resolver answers without error, every non-nil error
returned by `isAllowed`, after a forceful denial as after a plain one, has
cause `fosite.ErrRequestForbidden`; and when every identity evaluates to a
non-nil error that is not a forceful denial, the result is
`errors.Wrap(fosite.ErrRequestForbidden, ladon.ErrRequestDenied.Error())`,
a non-nil error of that cause. -/
theorem isAllowed_error_is_forbidden (w : LocalWarden) (a : ladon.Request)
    (groups : List String) (h : w.Groups a.Subject = (groups, none)) :
    ((w.isAllowed a).1 ≠ none →
      errors.Cause (w.isAllowed a).1 = some fosite.ErrRequestForbidden) ∧
    ((∀ id ∈ a.Subject :: groups,
        w.evaluate a.Resource a.Action a.Context id ≠ none ∧
        errors.Cause (w.evaluate a.Resource a.Action a.Context id)
          ≠ some ladon.ErrRequestForcefullyDenied) →
      (w.isAllowed a).1
        = errors.Wrap (some fosite.ErrRequestForbidden) ladon.ErrRequestDenied.Error ∧
      (w.isAllowed a).1 ≠ none ∧
      errors.Cause (w.isAllowed a).1 = some fosite.ErrRequestForbidden) := by
  rw [isAllowed_fst w a groups h]
  cases hl : forcefulDenyLoop
      ((a.Subject :: groups).map (w.evaluate a.Resource a.Action a.Context)) with
  | some ret =>
    obtain ⟨e, he, hc, hr⟩ := forcefulDenyLoop_eq_some _ _ hl
    obtain ⟨id, hid, hev⟩ := List.mem_map.1 he
    subst hr
    refine ⟨fun _ => errors_Cause_Wrap_forbidden _, fun hall => ?_⟩
    exact absurd (hev ▸ hc) (hall id hid).2
  | none =>
    by_cases ha : allowLoop
        ((a.Subject :: groups).map (w.evaluate a.Resource a.Action a.Context)) = true
    · simp only [ha, if_true]
      refine ⟨fun hn => absurd rfl hn, fun hall => ?_⟩
      obtain ⟨id, hid, hev⟩ := List.mem_map.1 ((allowLoop_iff _).1 ha)
      exact absurd hev (hall id hid).1
    · simp only [ha]
      exact ⟨fun _ => errors_Cause_Wrap_forbidden _,
        fun _ => ⟨rfl, errors_Wrap_ne_none _ _, errors_Cause_Wrap_forbidden _⟩⟩

/-- Witness of C3: no identity of alice matches any policy. -/
theorem isAllowed_error_is_forbidden_witness :
    noMatch.Groups aliceRequest.Subject = (["admins"], none) ∧
    (((noMatch.isAllowed aliceRequest).1 ≠ none →
      errors.Cause (noMatch.isAllowed aliceRequest).1 = some fosite.ErrRequestForbidden) ∧
    ((∀ id ∈ aliceRequest.Subject :: ["admins"],
        noMatch.evaluate aliceRequest.Resource aliceRequest.Action aliceRequest.Context id
          ≠ none ∧
        errors.Cause (noMatch.evaluate aliceRequest.Resource aliceRequest.Action
          aliceRequest.Context id) ≠ some ladon.ErrRequestForcefullyDenied) →
      (noMatch.isAllowed aliceRequest).1
        = errors.Wrap (some fosite.ErrRequestForbidden) ladon.ErrRequestDenied.Error ∧
      (noMatch.isAllowed aliceRequest).1 ≠ none ∧
      errors.Cause (noMatch.isAllowed aliceRequest).1 = some fosite.ErrRequestForbidden)) ∧
    (noMatch.isAllowed aliceRequest).1 ≠ none ∧
    (∀ id ∈ aliceRequest.Subject :: ["admins"],
        noMatch.evaluate aliceRequest.Resource aliceRequest.Action aliceRequest.Context id
          ≠ none ∧
        errors.Cause (noMatch.evaluate aliceRequest.Resource aliceRequest.Action
          aliceRequest.Context id) ≠ some ladon.ErrRequestForcefullyDenied) :=
  ⟨rfl, isAllowed_error_is_forbidden noMatch aliceRequest ["admins"] rfl, by decide,
    by decide⟩

/-- C4: when `Groups.FindGroupNames` returns an error `e`, `isAllowed`
returns exactly `e` after that one call, `IsAllowed` returns `e` as well,
and neither consults the Policy Evaluator; the result is not `nil`. -/
theorem isAllowed_group_error (w : LocalWarden) (a : firewall.AccessRequest)
    (gs : List String) (e : GoError) (h : w.Groups a.Subject = (gs, some e)) :
    w.isAllowed ⟨a.Resource, a.Action, a.Subject, a.Context⟩
      = (some e, [Event.FindGroupNames a.Subject]) ∧
    (∀ ev ∈ (w.isAllowed ⟨a.Resource, a.Action, a.Subject, a.Context⟩).2,
      ev.isWardenIsAllowed = false) ∧
    (w.IsAllowed a).1 = some e ∧
    (w.IsAllowed a).1 ≠ none ∧
    (∀ ev ∈ (w.IsAllowed a).2, ev.isWardenIsAllowed = false) := by
  have hi := isAllowed_of_groups_error w ⟨a.Resource, a.Action, a.Subject, a.Context⟩ gs e h
  have hI : (w.IsAllowed a).1 = some e := by rw [IsAllowed_fst, hi]
  refine ⟨hi, ?_, hI, ?_, ?_⟩
  · rw [hi]
    intro ev hev
    simp only [List.mem_singleton] at hev
    subst hev
    rfl
  · rw [hI]
    simp
  · unfold LocalWarden.IsAllowed
    rw [hi]
    intro ev hev
    simp only [List.singleton_append, List.mem_cons, List.mem_singleton, List.not_mem_nil,
      or_false] at hev
    rcases hev with rfl | rfl | rfl <;> rfl

/-- Witness of C4: the group storage is down. -/
theorem isAllowed_group_error_witness :
    groupsDown.Groups aliceAccess.Subject = ([], some storageDown) ∧
    (groupsDown.isAllowed ⟨aliceAccess.Resource, aliceAccess.Action, aliceAccess.Subject,
        aliceAccess.Context⟩ = (some storageDown, [Event.FindGroupNames aliceAccess.Subject]) ∧
    (∀ ev ∈ (groupsDown.isAllowed ⟨aliceAccess.Resource, aliceAccess.Action,
        aliceAccess.Subject, aliceAccess.Context⟩).2, ev.isWardenIsAllowed = false) ∧
    (groupsDown.IsAllowed aliceAccess).1 = some storageDown ∧
    (groupsDown.IsAllowed aliceAccess).1 ≠ none ∧
    (∀ ev ∈ (groupsDown.IsAllowed aliceAccess).2, ev.isWardenIsAllowed = false)) :=
  ⟨rfl, isAllowed_group_error groupsDown aliceAccess [] storageDown rfl⟩

/-! ## Errors of the evaluator that are no policy decision -/

/-- C5, as stated, fails: the evaluator reports a storage error for alice
(non-nil, not a forceful denial), her group admins evaluates to Allow, and
`isAllowed` returns `nil`. -/
theorem isAllowed_backend_error_not_closed :
    policyDown.Groups aliceRequest.Subject = (["admins"], none) ∧
    policyDown.evaluate aliceRequest.Resource aliceRequest.Action aliceRequest.Context
      "alice" = some storageDown ∧
    errors.Cause (some storageDown) ≠ some ladon.ErrRequestForcefullyDenied ∧
    ¬ ((policyDown.isAllowed aliceRequest).1 ≠ none) := by
  decide

/-- C5, amended: when the group resolver answers without error and the
evaluator returns a non-nil error that is no forceful denial for an identity
`id0`, `isAllowed` returns a non-nil error exactly when some identity is
forcefully denied or no other identity evaluates to Allow. -/
theorem isAllowed_backend_error (w : LocalWarden) (a : ladon.Request)
    (groups : List String) (h : w.Groups a.Subject = (groups, none))
    (id0 : String) (_hid0 : id0 ∈ a.Subject :: groups)
    (hb : w.evaluate a.Resource a.Action a.Context id0 ≠ none)
    (_hnf : errors.Cause (w.evaluate a.Resource a.Action a.Context id0)
      ≠ some ladon.ErrRequestForcefullyDenied) :
    (w.isAllowed a).1 ≠ none ↔
      ((∃ id ∈ a.Subject :: groups,
        errors.Cause (w.evaluate a.Resource a.Action a.Context id)
          = some ladon.ErrRequestForcefullyDenied) ∨
      (∀ id ∈ a.Subject :: groups, id ≠ id0 →
        w.evaluate a.Resource a.Action a.Context id ≠ none)) := by
  rw [Ne, isAllowed_eq_none_iff w a groups h]
  constructor
  · intro hn
    by_cases hex : ∃ id ∈ a.Subject :: groups,
        errors.Cause (w.evaluate a.Resource a.Action a.Context id)
          = some ladon.ErrRequestForcefullyDenied
    · exact Or.inl hex
    · refine Or.inr fun id hid _ hev => hn ⟨fun j hj hc => hex ⟨j, hj, hc⟩, id, hid, hev⟩
  · rintro (⟨id, hid, hc⟩ | hall) ⟨hno, j, hj, hev⟩
    · exact hno id hid hc
    · by_cases hj0 : j = id0
      · exact hb (hj0 ▸ hev)
      · exact hall j hj hj0 hev

/-- Witness of C5 amended: the storage error for alice is the only
evaluation, so the request is denied. -/
theorem isAllowed_backend_error_witness :
    (sampleWarden (fun _ => some storageDown) ([], none)).Groups aliceRequest.Subject
      = ([], none) ∧
    "alice" ∈ aliceRequest.Subject :: [] ∧
    (sampleWarden (fun _ => some storageDown) ([], none)).evaluate aliceRequest.Resource
      aliceRequest.Action aliceRequest.Context "alice" ≠ none ∧
    errors.Cause ((sampleWarden (fun _ => some storageDown) ([], none)).evaluate
      aliceRequest.Resource aliceRequest.Action aliceRequest.Context "alice")
      ≠ some ladon.ErrRequestForcefullyDenied ∧
    (((sampleWarden (fun _ => some storageDown) ([], none)).isAllowed aliceRequest).1 ≠ none ↔
      ((∃ id ∈ aliceRequest.Subject :: [],
        errors.Cause ((sampleWarden (fun _ => some storageDown) ([], none)).evaluate
          aliceRequest.Resource aliceRequest.Action aliceRequest.Context id)
          = some ladon.ErrRequestForcefullyDenied) ∨
      (∀ id ∈ aliceRequest.Subject :: [], id ≠ "alice" →
        (sampleWarden (fun _ => some storageDown) ([], none)).evaluate aliceRequest.Resource
          aliceRequest.Action aliceRequest.Context id ≠ none))) ∧
    ((sampleWarden (fun _ => some storageDown) ([], none)).isAllowed aliceRequest).1 ≠ none :=
  ⟨rfl, by decide, by decide, by decide,
    isAllowed_backend_error (sampleWarden (fun _ => some storageDown) ([], none)) aliceRequest
      [] rfl "alice" (by decide) (by decide) (by decide),
    by decide⟩

/-! ## `TokenAllowed` -/

theorem TokenAllowed_of_introspection_error (w : LocalWarden) (token : String)
    (a : firewall.TokenAccessRequest) (scopes : List String) (e : GoError)
    (h : w.OAuth2 token scopes = .error e) :
    w.TokenAllowed token a scopes =
      ((w.newBasicContext, some e),
        [Event.IntrospectToken token scopes,
         Event.Log
          [("request", .tokenAccessRequest a),
           ("reason", .str "Token is expired, malformed or missing")]
          (some e) "Access denied",
         Event.Increment "Warden.TokenAllowed.Failure"
          [("client_id", ""), ("resource", w.SanitizeForStatsd a.Resource "_"),
           ("reason", "Token is expired, malformed or missing"),
           ("action", w.SanitizeForStatsd a.Action "_")]]) := by
  unfold LocalWarden.TokenAllowed
  simp only [h]

theorem TokenAllowed_of_denied (w : LocalWarden) (token : String)
    (a : firewall.TokenAccessRequest) (scopes : List String) (auth : fosite.AccessRequester)
    (err : GoError) (h : w.OAuth2 token scopes = .ok auth)
    (hr : (w.isAllowed ⟨a.Resource, a.Action, auth.GetSession.GetSubject, a.Context⟩).1
      = some err) :
    (w.TokenAllowed token a scopes).1 =
      ({ w.newBasicContext with Subject := auth.GetSession.GetSubject }, some err) ∧
    ∃ post, (w.TokenAllowed token a scopes).2 = Event.IntrospectToken token scopes ::
      (w.isAllowed ⟨a.Resource, a.Action, auth.GetSession.GetSubject, a.Context⟩).2
        ++ post := by
  unfold LocalWarden.TokenAllowed
  simp only [h, hr]
  exact ⟨trivial, _, rfl⟩

theorem TokenAllowed_of_allowed (w : LocalWarden) (token : String)
    (a : firewall.TokenAccessRequest) (scopes : List String) (auth : fosite.AccessRequester)
    (h : w.OAuth2 token scopes = .ok auth)
    (hr : (w.isAllowed ⟨a.Resource, a.Action, auth.GetSession.GetSubject, a.Context⟩).1
      = none) :
    (w.TokenAllowed token a scopes).1 = (w.newContext auth, none) ∧
    ∃ post, (w.TokenAllowed token a scopes).2 = Event.IntrospectToken token scopes ::
      (w.isAllowed ⟨a.Resource, a.Action, auth.GetSession.GetSubject, a.Context⟩).2
        ++ post := by
  unfold LocalWarden.TokenAllowed
  simp only [h, hr]
  exact ⟨trivial, _, rfl⟩

/-- C6: when `OAuth2.IntrospectToken` returns an error `e`, `TokenAllowed`
returns `e` itself with the zero-valued context (empty `Subject`, no scopes,
empty issuer and audience, zero times, no extra), and consults neither the
Group Resolver nor the Policy Evaluator. -/
theorem TokenAllowed_introspection_error (w : LocalWarden) (token : String)
    (a : firewall.TokenAccessRequest) (scopes : List String) (e : GoError)
    (h : w.OAuth2 token scopes = .error e) :
    (w.TokenAllowed token a scopes).1
      = ({ Subject := "", GrantedScopes := [], Issuer := "", Audience := "",
           IssuedAt := time.Time.zero,
             ExpiresAt := time.Time.zero, Extra := [] }, some e) ∧
    (w.TokenAllowed token a scopes).1.1.ExpiresAt.IsZero = true ∧
    (w.TokenAllowed token a scopes).1.1.IssuedAt.IsZero = true ∧
    (∀ ev ∈ (w.TokenAllowed token a scopes).2,
      ev.isFindGroupNames = false ∧ ev.isWardenIsAllowed = false) := by
  rw [TokenAllowed_of_introspection_error w token a scopes e h]
  refine ⟨rfl, rfl, rfl, ?_⟩
  intro ev hev
  simp only [List.mem_cons, List.mem_singleton, List.not_mem_nil, or_false] at hev
  rcases hev with rfl | rfl | rfl <;> exact ⟨rfl, rfl⟩

/-- Witness of C6: the token is not the valid one. -/
theorem TokenAllowed_introspection_error_witness :
    allowAll.OAuth2 "stale" ["hydra.clients"] = .error tokenExpired ∧
    ((allowAll.TokenAllowed "stale" tokenRequest ["hydra.clients"]).1
      = ({ Subject := "", GrantedScopes := [], Issuer := "", Audience := "",
           IssuedAt := time.Time.zero,
             ExpiresAt := time.Time.zero, Extra := [] }, some tokenExpired) ∧
    (allowAll.TokenAllowed "stale" tokenRequest ["hydra.clients"]).1.1.ExpiresAt.IsZero
      = true ∧
    (allowAll.TokenAllowed "stale" tokenRequest ["hydra.clients"]).1.1.IssuedAt.IsZero
      = true ∧
    (∀ ev ∈ (allowAll.TokenAllowed "stale" tokenRequest ["hydra.clients"]).2,
      ev.isFindGroupNames = false ∧ ev.isWardenIsAllowed = false)) :=
  ⟨rfl, TokenAllowed_introspection_error allowAll "stale" tokenRequest ["hydra.clients"]
    tokenExpired rfl⟩

/-- C7: when introspection succeeds with a session whose `GetSubject()` is
`S`, the error returned by `TokenAllowed` is the one `IsAllowed` and
`isAllowed` return on the request made of the resource, action and context
with subject `S`, reached through the same collaborator calls; when that
error is not `nil`, the returned context has `Subject` equal to `S` and every
other field zero-valued. -/
theorem TokenAllowed_denied (w : LocalWarden) (token : String)
    (a : firewall.TokenAccessRequest) (scopes : List String) (auth : fosite.AccessRequester)
    (h : w.OAuth2 token scopes = .ok auth) :
    (w.TokenAllowed token a scopes).1.2
      = (w.IsAllowed ⟨a.Resource, a.Action, auth.GetSession.GetSubject, a.Context⟩).1 ∧
    (w.TokenAllowed token a scopes).1.2
      = (w.isAllowed ⟨a.Resource, a.Action, auth.GetSession.GetSubject, a.Context⟩).1 ∧
    (∃ post, (w.TokenAllowed token a scopes).2 = Event.IntrospectToken token scopes ::
      (w.isAllowed ⟨a.Resource, a.Action, auth.GetSession.GetSubject, a.Context⟩).2
        ++ post) ∧
    (∀ err, (w.isAllowed ⟨a.Resource, a.Action, auth.GetSession.GetSubject, a.Context⟩).1
        = some err →
      (w.TokenAllowed token a scopes).1
        = ({ Subject := auth.GetSession.GetSubject, GrantedScopes := [], Issuer := "",
             Audience := "", IssuedAt := time.Time.zero,
             ExpiresAt := time.Time.zero, Extra := [] }, some err)) := by
  rw [IsAllowed_fst]
  cases hr : (w.isAllowed ⟨a.Resource, a.Action, auth.GetSession.GetSubject, a.Context⟩).1 with
  | none =>
    obtain ⟨h1, h2⟩ := TokenAllowed_of_allowed w token a scopes auth h hr
    refine ⟨by rw [h1], by rw [h1], h2, ?_⟩
    intro err herr
    exact absurd herr (by simp)
  | some e =>
    obtain ⟨h1, h2⟩ := TokenAllowed_of_denied w token a scopes auth e h hr
    refine ⟨by rw [h1], by rw [h1], h2, ?_⟩
    intro err herr
    rw [h1, ← Option.some.inj herr]
    rfl

/-- Witness of C7: the token of alice is valid and neither she nor her
group matches any policy. -/
theorem TokenAllowed_denied_witness :
    noMatch.OAuth2 "valid" [] = .ok aliceAuth ∧
    ((noMatch.TokenAllowed "valid" tokenRequest []).1.2
      = (noMatch.IsAllowed ⟨tokenRequest.Resource, tokenRequest.Action,
          aliceAuth.GetSession.GetSubject, tokenRequest.Context⟩).1 ∧
    (noMatch.TokenAllowed "valid" tokenRequest []).1.2
      = (noMatch.isAllowed ⟨tokenRequest.Resource, tokenRequest.Action,
          aliceAuth.GetSession.GetSubject, tokenRequest.Context⟩).1 ∧
    (∃ post, (noMatch.TokenAllowed "valid" tokenRequest []).2
      = Event.IntrospectToken "valid" [] ::
        (noMatch.isAllowed ⟨tokenRequest.Resource, tokenRequest.Action,
          aliceAuth.GetSession.GetSubject, tokenRequest.Context⟩).2 ++ post) ∧
    (∀ err, (noMatch.isAllowed ⟨tokenRequest.Resource, tokenRequest.Action,
          aliceAuth.GetSession.GetSubject, tokenRequest.Context⟩).1 = some err →
      (noMatch.TokenAllowed "valid" tokenRequest []).1
        = ({ Subject := aliceAuth.GetSession.GetSubject, GrantedScopes := [], Issuer := "",
             Audience := "", IssuedAt := time.Time.zero,
             ExpiresAt := time.Time.zero, Extra := [] }, some err))) ∧
    (noMatch.TokenAllowed "valid" tokenRequest []).1.2 ≠ none :=
  ⟨rfl, TokenAllowed_denied noMatch "valid" tokenRequest [] aliceAuth rfl, by decide⟩

/-- C8: when introspection succeeds and the combined decision is Allow,
`TokenAllowed` returns a `nil` error and the context of `newContext`:
`Subject` and `Extra` are those of the session, `GrantedScopes` those of the
authenticated request, `Issuer` is the configured issuer, `Audience` the ID
of the client and `IssuedAt` the `RequestedAt` of the request. -/
theorem TokenAllowed_allowed (w : LocalWarden) (token : String)
    (a : firewall.TokenAccessRequest) (scopes : List String) (auth : fosite.AccessRequester)
    (h : w.OAuth2 token scopes = .ok auth)
    (hallow : (w.isAllowed ⟨a.Resource, a.Action, auth.GetSession.GetSubject, a.Context⟩).1
      = none) :
    (w.TokenAllowed token a scopes).1 = (w.newContext auth, none) ∧
    (w.TokenAllowed token a scopes).1.1.Subject = auth.GetSession.Subject ∧
    (w.TokenAllowed token a scopes).1.1.GrantedScopes = auth.GetGrantedScopes ∧
    (w.TokenAllowed token a scopes).1.1.Extra = auth.GetSession.Extra ∧
    (w.TokenAllowed token a scopes).1.1.Issuer = w.Issuer ∧
    (w.TokenAllowed token a scopes).1.1.Audience = auth.GetClientID ∧
    (w.TokenAllowed token a scopes).1.1.IssuedAt = auth.GetRequestedAt := by
  rw [(TokenAllowed_of_allowed w token a scopes auth h hallow).1]
  exact ⟨rfl, rfl, rfl, rfl, rfl, rfl, rfl⟩

/-- Witness of C8: the token of alice is valid, she is plainly denied and her
group is allowed. -/
theorem TokenAllowed_allowed_witness :
    denyAllow.OAuth2 "valid" [] = .ok aliceAuth ∧
    (denyAllow.isAllowed ⟨tokenRequest.Resource, tokenRequest.Action,
      aliceAuth.GetSession.GetSubject, tokenRequest.Context⟩).1 = none ∧
    ((denyAllow.TokenAllowed "valid" tokenRequest []).1
      = (denyAllow.newContext aliceAuth, none) ∧
    (denyAllow.TokenAllowed "valid" tokenRequest []).1.1.Subject
      = aliceAuth.GetSession.Subject ∧
    (denyAllow.TokenAllowed "valid" tokenRequest []).1.1.GrantedScopes
      = aliceAuth.GetGrantedScopes ∧
    (denyAllow.TokenAllowed "valid" tokenRequest []).1.1.Extra = aliceAuth.GetSession.Extra ∧
    (denyAllow.TokenAllowed "valid" tokenRequest []).1.1.Issuer = denyAllow.Issuer ∧
    (denyAllow.TokenAllowed "valid" tokenRequest []).1.1.Audience = aliceAuth.GetClientID ∧
    (denyAllow.TokenAllowed "valid" tokenRequest []).1.1.IssuedAt
      = aliceAuth.GetRequestedAt) :=
  ⟨rfl, by decide, TokenAllowed_allowed denyAllow "valid" tokenRequest [] aliceAuth rfl
    (by decide)⟩

/-! ## The expiry of the context -/

theorem Time_Add_IsZero (t : time.Time) (d : time.Duration) :
    (t.Add d).IsZero = true ↔ t.nanos + d.ns = 0 := by
  have h1 := t.nsec_range
  have h2 := t.sec_range
  have h3 := d.ns_range
  unfold time.Time.Add time.Time.IsZero time.Time.nanos time.addSec time.addNsec time.quo
    time.rem time.wrapInt64
  simp only [Bool.and_eq_true, beq_iff_eq]
  split <;> split <;> (try split) <;> (try split) <;> (try split) <;> simp only <;> omega

theorem Time_Add_nanos (t : time.Time) (d : time.Duration)
    (hr : -9223372036854775808 * 1000000000 ≤ t.nanos + d.ns ∧
      t.nanos + d.ns ≤ 9223372036854775807 * 1000000000 + 999999999) :
    (t.Add d).nanos = t.nanos + d.ns := by
  have h1 := t.nsec_range
  have h2 := t.sec_range
  have h3 := d.ns_range
  revert hr
  unfold time.Time.Add time.Time.nanos time.addSec time.addNsec time.quo
    time.rem time.wrapInt64
  simp only
  intro hr
  split <;> split <;> (try split) <;> (try split) <;> (try split) <;> simp only <;> omega

theorem newContext_ExpiresAt_eq (w : LocalWarden) (auth : fosite.AccessRequester) :
    (w.newContext auth).ExpiresAt =
      if auth.GetSession.GetExpiresAtAccessToken.IsZero = true
      then auth.GetRequestedAt.Add w.AccessTokenLifespan
      else auth.GetSession.GetExpiresAtAccessToken := by
  unfold LocalWarden.newContext
  cases hz : auth.GetSession.GetExpiresAtAccessToken.IsZero <;> simp [hz]

/-- C9, as stated, fails: with `RequestedAt` in the last second a `Time`
can hold, a lifespan of one hour and a session without expiry, `Add`
saturates and `ExpiresAt` is `RequestedAt` itself, not `T0 + L`. -/
theorem newContext_ExpiresAt_saturates :
    lateAuth.GetSession.GetExpiresAtAccessToken.IsZero = true ∧
    (allowAll.newContext lateAuth).ExpiresAt = lateAuth.GetRequestedAt ∧
    (allowAll.newContext lateAuth).ExpiresAt.nanos
      ≠ lateAuth.GetRequestedAt.nanos + allowAll.AccessTokenLifespan.ns := by
  decide

/-- C9, amended: when the expiry of the session for access tokens is the
zero time, `newContext` sets `ExpiresAt` to `RequestedAt.Add(L)`, which is
the instant `T0 + L` exactly whenever `T0 + L` lies in the range of
`time.Time` (whole seconds from the zero time within `int64`); otherwise it
sets `ExpiresAt` to the expiry of the session itself. -/
theorem newContext_ExpiresAt (w : LocalWarden) (auth : fosite.AccessRequester) :
    (auth.GetSession.GetExpiresAtAccessToken.IsZero = true →
      (w.newContext auth).ExpiresAt = auth.GetRequestedAt.Add w.AccessTokenLifespan) ∧
    (auth.GetSession.GetExpiresAtAccessToken.IsZero = true →
      (-9223372036854775808 * 1000000000
          ≤ auth.GetRequestedAt.nanos + w.AccessTokenLifespan.ns ∧
        auth.GetRequestedAt.nanos + w.AccessTokenLifespan.ns
          ≤ 9223372036854775807 * 1000000000 + 999999999) →
      (w.newContext auth).ExpiresAt.nanos
        = auth.GetRequestedAt.nanos + w.AccessTokenLifespan.ns) ∧
    (auth.GetSession.GetExpiresAtAccessToken.IsZero = false →
      (w.newContext auth).ExpiresAt = auth.GetSession.GetExpiresAtAccessToken) := by
  rw [newContext_ExpiresAt_eq]
  refine ⟨fun hz => by simp [hz], fun hz hr => ?_, fun hz => by simp [hz]⟩
  simp only [hz, if_true]
  exact Time_Add_nanos _ _ hr

/-- Witness of C9 amended: issued 1000 seconds after the zero time with a
lifespan of one hour and no expiry in the session, the context expires 4600
seconds after the zero time. -/
theorem newContext_ExpiresAt_witness :
    aliceAuth.GetSession.GetExpiresAtAccessToken.IsZero = true ∧
    (-9223372036854775808 * 1000000000
        ≤ aliceAuth.GetRequestedAt.nanos + allowAll.AccessTokenLifespan.ns ∧
      aliceAuth.GetRequestedAt.nanos + allowAll.AccessTokenLifespan.ns
        ≤ 9223372036854775807 * 1000000000 + 999999999) ∧
    (allowAll.newContext aliceAuth).ExpiresAt.nanos
      = aliceAuth.GetRequestedAt.nanos + allowAll.AccessTokenLifespan.ns ∧
    (allowAll.newContext aliceAuth).ExpiresAt.nanos = 4600000000000 :=
  ⟨by decide, by decide,
    (newContext_ExpiresAt allowAll aliceAuth).2.1 (by decide) (by decide), by decide⟩

/-- C10, as stated, fails: with no lifespan configured, a session without
expiry and an unset `RequestedAt`, `TokenAllowed` succeeds and the `ExpiresAt`
of its context is the zero time. -/
theorem TokenAllowed_ExpiresAt_zero :
    (unsetClock.TokenAllowed "valid" tokenRequest []).1.2 = none ∧
    (unsetClock.TokenAllowed "valid" tokenRequest []).1.1.ExpiresAt.IsZero = true := by
  decide

/-- C10, amended: in every successful result of `TokenAllowed` the
`ExpiresAt` of the context is the zero time exactly when the session carries
no expiry and `RequestedAt + AccessTokenLifespan` is the zero time too; so it
is not zero as soon as the session carries an expiry or that sum is not the
zero time. -/
theorem TokenAllowed_ExpiresAt_zero_iff (w : LocalWarden) (token : String)
    (a : firewall.TokenAccessRequest) (scopes : List String)
    (hs : (w.TokenAllowed token a scopes).1.2 = none) :
    ∃ auth, w.OAuth2 token scopes = .ok auth ∧
      ((w.TokenAllowed token a scopes).1.1.ExpiresAt.IsZero = true ↔
        auth.GetSession.GetExpiresAtAccessToken.IsZero = true ∧
        auth.GetRequestedAt.nanos + w.AccessTokenLifespan.ns = 0) ∧
      ((auth.GetSession.GetExpiresAtAccessToken.IsZero = false ∨
        auth.GetRequestedAt.nanos + w.AccessTokenLifespan.ns ≠ 0) →
        (w.TokenAllowed token a scopes).1.1.ExpiresAt.IsZero = false) := by
  cases ho : w.OAuth2 token scopes with
  | error e =>
    rw [TokenAllowed_of_introspection_error w token a scopes e ho] at hs
    exact absurd hs (by simp)
  | ok auth =>
    have hr : (w.isAllowed ⟨a.Resource, a.Action, auth.GetSession.GetSubject, a.Context⟩).1
        = none := by
      cases hr : (w.isAllowed
          ⟨a.Resource, a.Action, auth.GetSession.GetSubject, a.Context⟩).1 with
      | none => rfl
      | some e =>
        rw [(TokenAllowed_of_denied w token a scopes auth e ho hr).1] at hs
        exact absurd hs (by simp)
    have hctx := (TokenAllowed_of_allowed w token a scopes auth ho hr).1
    refine ⟨auth, rfl, ?_⟩
    rw [hctx]
    show ((w.newContext auth).ExpiresAt.IsZero = true ↔ _) ∧
      (_ → (w.newContext auth).ExpiresAt.IsZero = false)
    rw [newContext_ExpiresAt_eq]
    have hadd := Time_Add_IsZero auth.GetRequestedAt w.AccessTokenLifespan
    cases hz : auth.GetSession.GetExpiresAtAccessToken.IsZero
    · simp [hz]
    · simp only [if_true, true_and, hadd, ne_eq, false_or, reduceCtorEq]
      intro hne
      cases hzz : (auth.GetRequestedAt.Add w.AccessTokenLifespan).IsZero
      · rfl
      · exact absurd (hadd.1 hzz) hne

/-- Witness of C10 amended: a valid token of alice, allowed, whose session
carries no expiry, receives the expiry 1000 + 3600 seconds. -/
theorem TokenAllowed_ExpiresAt_zero_iff_witness :
    (allowAll.TokenAllowed "valid" tokenRequest []).1.2 = none ∧
    (∃ auth, allowAll.OAuth2 "valid" [] = .ok auth ∧
      ((allowAll.TokenAllowed "valid" tokenRequest []).1.1.ExpiresAt.IsZero = true ↔
        auth.GetSession.GetExpiresAtAccessToken.IsZero = true ∧
        auth.GetRequestedAt.nanos + allowAll.AccessTokenLifespan.ns = 0) ∧
      ((auth.GetSession.GetExpiresAtAccessToken.IsZero = false ∨
        auth.GetRequestedAt.nanos + allowAll.AccessTokenLifespan.ns ≠ 0) →
        (allowAll.TokenAllowed "valid" tokenRequest []).1.1.ExpiresAt.IsZero = false)) ∧
    (allowAll.TokenAllowed "valid" tokenRequest []).1.1.ExpiresAt
      = ⟨4600, 0, by decide, by decide⟩ :=
  ⟨by decide, TokenAllowed_ExpiresAt_zero_iff allowAll "valid" tokenRequest [] (by decide),
    by decide⟩
